import Mathlib

/-!
Shallow embedding of the Bulls and Bears game core: the session/score
tracker in the game component (src/unnamed/part_000) together with a
spec-modelled guess evaluator for the backend endpoints that are not part
of the visible sources (only their HTTP callers are, in gameApi.js).
Machine numbers are modelled as Int/Nat; scores are modelled as exact
rationals mirroring the arithmetic the code performs.
-/

namespace BullsBears

/-- WORD_LENGTH = 5 in the game component. -/
def wordLength : Nat := 5

/-- MAX_ATTEMPTS = 6 in the game component. -/
def maxAttempts : Nat := 6

/-- DEFAULT_TIMER = 180 seconds in the game component. -/
def defaultTimer : Int := 180

/-- Per-position feedback label of a guess against the secret word. -/
inductive Feedback
  | correct
  | present
  | absent
deriving DecidableEq, Repr

/-- Session status: idle, active, won, lost (gameStatus state). -/
inductive GameStatus
  | idle
  | active
  | won
  | lost
deriving DecidableEq, Repr

/-- User-visible error taxonomy of the game actions. -/
inductive GameError
  | invalidInput
  | insufficientCoins
  | allPositionsRevealed
  | noActiveGame
deriving DecidableEq, Repr

/-- A hint revealed to the player: a board position and its letter
(the hints state, entries {position, letter}). -/
structure Hint where
  position : Nat
  letter : Char
deriving DecidableEq, Repr

/-- One submitted attempt: the guess and its per-position feedback
(the attempts state entries; timestamps are omitted as no claim uses them). -/
structure Attempt where
  guess : List Char
  feedback : List Feedback
deriving DecidableEq, Repr

/-- Uppercase a word letter by letter (the frontend uppercases typed input
and the backend comparison is case-insensitive). -/
def upperWord (w : List Char) : List Char := w.map Char.toUpper

/-- Alphabetic character test mirroring the regex ^[A-Za-z]+$ applied to
the reconstructed guess. -/
def isAlphaChar (c : Char) : Bool :=
  (('A' ≤ c) && (c ≤ 'Z')) || (('a' ≤ c) && (c ≤ 'z'))

/-- Modelled from the spec: pass 1 of the guess evaluator (backend
endpoint /api/game/guess, not under src/): flag each guess position by
whether it exactly matches the secret at that position. -/
def pass1 (secret guess : List Char) : List (Char × Bool) :=
  (guess.zip secret).map (fun p => (p.1, p.1 == p.2))

/-- Modelled from the spec: the working multiset of secret letters left
after pass 1 consumes every exact match. -/
def remainingSecret (secret guess : List Char) : List Char :=
  ((guess.zip secret).filter (fun p => p.1 != p.2)).map Prod.snd

/-- Modelled from the spec: pass 2 of the guess evaluator: exact matches
become correct; a remaining guess letter is present while the working
multiset still holds an unconsumed occurrence, else absent. -/
def pass2 : List (Char × Bool) → List Char → List Feedback
  | [], _ => []
  | (_, true) :: rest, rem => Feedback.correct :: pass2 rest rem
  | (g, false) :: rest, rem =>
    if rem.contains g then Feedback.present :: pass2 rest (rem.erase g)
    else Feedback.absent :: pass2 rest rem

/-- Modelled from the spec: the two-pass Wordle-style guess evaluator of
the backend (standard semantics, duplicates consumed from a working
multiset after exact matches are removed first). -/
def evaluate (secret guess : List Char) : List Feedback :=
  pass2 (pass1 secret guess) (remainingSecret secret guess)

/-- Modelled from the spec: the backend is_correct flag — feedback is
all-correct. -/
def isWin (fb : List Feedback) : Bool :=
  fb.all (fun f => f == Feedback.correct)

/-- First hint recorded for a board position, if any
(hints.find(h => h.position === i)). -/
def hintAt (hints : List Hint) (i : Nat) : Option Hint :=
  hints.find? (fun h => h.position == i)

/-- The guess-reconstruction loop of submitGuess: walk positions i
carrying the userInputIndex counter; a hinted position contributes its
hint letter, an unhinted one contributes the next typed letter when there
is one (currentGuess[userInputIndex] || two quotes contributes nothing
when typed input is exhausted) and advances the counter either way. -/
def buildFrom (hints : List Hint) (typed : List Char) :
    Nat → Nat → Nat → List Char
  | 0, _, _ => []
  | fuel + 1, i, uii =>
    match hintAt hints i with
    | some h => h.letter :: buildFrom hints typed fuel (i + 1) uii
    | none =>
      match typed.get? uii with
      | some c => c :: buildFrom hints typed fuel (i + 1) (uii + 1)
      | none => buildFrom hints typed fuel (i + 1) (uii + 1)

/-- The complete guess submitGuess reconstructs from hints plus typed
letters over the 5 board positions. -/
def buildCompleteGuess (hints : List Hint) (typed : List Char) : List Char :=
  buildFrom hints typed wordLength 0 0

/-- Number of unhinted board positions strictly before position i; this is
the value of the userInputIndex counter when the loop reaches i. -/
def typedSlots (hints : List Hint) (i : Nat) : Nat :=
  ((List.range i).filter (fun j => (hintAt hints j).isNone)).length

/-- The time bonus of a winning guess:
0.1 × Math.max(0, timeRemaining). -/
def timeBonus (t : Int) : ℚ := (1 / 10 : ℚ) * ((max 0 t : Int) : ℚ)

/-- The total score of a winning guess: baseScore 1.0 plus the time
bonus. -/
def winningScore (t : Int) : ℚ := 1 + timeBonus t

/-- The session state held by the game component. completedScore and
completedAttempts record the score and attempts_used arguments of the
gameApi.completeGame call made when the game ends (none while no such
call has been made). -/
structure GameSession where
  secretWord : Option (List Char)
  currentGuess : List Char
  attempts : List Attempt
  status : GameStatus
  timeRemaining : Int
  coins : Int
  hints : List Hint
  meaningClueUsed : Bool
  wordMeaning : Option String
  completedScore : Option ℚ
  completedAttempts : Option Nat
deriving DecidableEq, Repr

/-- The attempt record submitGuess appends: the submitted guess (the
backend echoes it; the frontend input is uppercase) and its feedback. -/
def attemptOf (secret : List Char) (s : GameSession) : Attempt :=
  { guess := upperWord (buildCompleteGuess s.hints s.currentGuess),
    feedback := evaluate (upperWord secret)
      (upperWord (buildCompleteGuess s.hints s.currentGuess)) }

/-- The submitGuess callback: reconstruct the complete guess, validate it
(length 5, alphabetic) before anything else, then evaluate it (the backend
evaluation is case-insensitive, modelled by uppercasing both sides),
append the attempt, and apply the transition rule: all-correct → won with
the score computed from the live countdown value; else a 6th attempt →
lost with score 0; else stay active. -/
def submitGuessCore (s : GameSession) : GameSession × Option GameError :=
  if (buildCompleteGuess s.hints s.currentGuess).length ≠ wordLength then
    (s, some GameError.invalidInput)
  else if ¬ ((buildCompleteGuess s.hints s.currentGuess).all isAlphaChar = true) then
    (s, some GameError.invalidInput)
  else
    match s.secretWord with
    | none => (s, some GameError.noActiveGame)
    | some secret =>
      if isWin (evaluate (upperWord secret)
          (upperWord (buildCompleteGuess s.hints s.currentGuess))) = true then
        ({ s with
            attempts := s.attempts ++ [attemptOf secret s],
            currentGuess := [],
            status := GameStatus.won,
            completedScore := some (winningScore s.timeRemaining),
            completedAttempts := some (s.attempts.length + 1) }, none)
      else if maxAttempts ≤ s.attempts.length + 1 then
        ({ s with
            attempts := s.attempts ++ [attemptOf secret s],
            currentGuess := [],
            status := GameStatus.lost,
            completedScore := some 0,
            completedAttempts := some (s.attempts.length + 1) }, none)
      else
        ({ s with
            attempts := s.attempts ++ [attemptOf secret s],
            currentGuess := [] }, none)

/-- The Enter key path (handleGlobalKeyPress, and the on-screen keyboard
rendered only while active): submitGuess runs only while the status is
active; otherwise the key is ignored and the state is unchanged. -/
def pressEnter (s : GameSession) : GameSession × Option GameError :=
  if s.status = GameStatus.active then submitGuessCore s else (s, none)

/-- handleTimeUp: the game is lost on time expiry; when a game is in
progress (gameState.secret_word present) the result is persisted with
score 0.0 and the in-progress attempt count. -/
def handleTimeUp (s : GameSession) : GameSession :=
  match s.secretWord with
  | some _ =>
    { s with
        status := GameStatus.lost,
        completedScore := some 0,
        completedAttempts := some s.attempts.length }
  | none => { s with status := GameStatus.lost }

/-- One firing of the countdown interval: the interval only exists while
the status is active and time remains (the timer useEffect condition, with
cleanup clearing the interval otherwise); the callback returns prev − 1,
except that at prev ≤ 1 it fires handleTimeUp and returns 0. -/
def tick (s : GameSession) : GameSession :=
  if s.status = GameStatus.active ∧ 0 < s.timeRemaining then
    if s.timeRemaining ≤ 1 then { handleTimeUp s with timeRemaining := 0 }
    else { s with timeRemaining := s.timeRemaining - 1 }
  else s

/-- Whether some attempt marks board position i correct
(attempts.some(a => a.feedback[i] === correct)). -/
def positionCorrect (attempts : List Attempt) (i : Nat) : Bool :=
  attempts.any (fun a => a.feedback.get? i == some Feedback.correct)

/-- Whether some hint covers board position i
(hints.some(h => h.position === i)). -/
def positionHinted (hints : List Hint) (i : Nat) : Bool :=
  hints.any (fun h => h.position == i)

/-- The revealedPositions array handleHint builds: for each position i it
pushes i once if some attempt marks i correct, and pushes i again if some
hint covers i — a position that is both correct and hinted appears
twice. -/
def revealedPositions (attempts : List Attempt) (hints : List Hint) : List Nat :=
  (List.range wordLength).flatMap (fun i =>
    (if positionCorrect attempts i then [i] else []) ++
    (if positionHinted hints i then [i] else []))

/-- Modelled from the spec: the backend hint endpoint /api/hint (not under
src/) picks an eligible position not yet revealed — policy: the first
unrevealed position. -/
def pickHintPosition (revealed : List Nat) : Nat :=
  (((List.range wordLength).filter (fun i => ¬ (revealed.contains i = true))).headD 0)

/-- handleHint: reject with no-active-game when no secret word is held;
reject with insufficient coins when the balance is below 10, before
anything else changes; reject with all-positions-revealed when the
revealedPositions array has length ≥ 5; otherwise (backend modelled from
the spec) reveal the first unrevealed position's letter and deduct 10
coins. -/
def handleHint (s : GameSession) : GameSession × Option GameError :=
  match s.secretWord with
  | none => (s, some GameError.noActiveGame)
  | some secret =>
    if s.coins < 10 then (s, some GameError.insufficientCoins)
    else if wordLength ≤ (revealedPositions s.attempts s.hints).length then
      (s, some GameError.allPositionsRevealed)
    else
      ({ s with
          hints := s.hints ++
            [{ position := pickHintPosition (revealedPositions s.attempts s.hints),
               letter := (upperWord secret).getD
                 (pickHintPosition (revealedPositions s.attempts s.hints)) 'A' }],
          coins := s.coins - 10 }, none)

/-- handleMeaningClue: with no secret word, reject; once the clue was used
and the meaning is cached, just show it again with no deduction; on a
first use, reject with insufficient coins below 5, else cache the fetched
meaning, deduct 5 coins (backend /api/deduct-coins-meaning, modelled from
the spec) and mark the clue used. -/
def handleMeaningClue (s : GameSession) (meaning : String) :
    GameSession × Option GameError :=
  match s.secretWord with
  | none => (s, some GameError.noActiveGame)
  | some _ =>
    if s.meaningClueUsed = true ∧ s.wordMeaning.isSome = true then (s, none)
    else if s.coins < 5 then (s, some GameError.insufficientCoins)
    else
      ({ s with
          wordMeaning := some meaning,
          coins := s.coins - 5,
          meaningClueUsed := true }, none)

/-- The hint button click: the button is rendered only while the status is
active. -/
def clickHint (s : GameSession) : GameSession × Option GameError :=
  if s.status = GameStatus.active then handleHint s else (s, none)

/-- The meaning-clue button click: the button is rendered only while the
status is active. -/
def clickMeaningClue (s : GameSession) (meaning : String) :
    GameSession × Option GameError :=
  if s.status = GameStatus.active then handleMeaningClue s meaning else (s, none)

/-- startNewGame: a fresh active session over a server-chosen secret word,
with attempts, typed input, hints, meaning state cleared and the full time
budget. -/
def startNewGame (s : GameSession) (secret : List Char) : GameSession :=
  { s with
      secretWord := some secret,
      attempts := [],
      currentGuess := [],
      timeRemaining := defaultTimer,
      status := GameStatus.active,
      hints := [],
      wordMeaning := none,
      meaningClueUsed := false }

/-- Keyboard key colouring status. -/
inductive LetterStatus
  | correct
  | present
  | absent
  | unused
deriving DecidableEq, Repr

/-- Whether some attempt has the letter at a position marked correct. -/
def letterCorrectSomewhere (attempts : List Attempt) (letter : Char) : Bool :=
  attempts.any (fun a =>
    (List.range a.guess.length).any (fun i =>
      a.guess.get? i == some letter && a.feedback.get? i == some Feedback.correct))

/-- Whether some attempt has the letter at a position marked present. -/
def letterPresentSomewhere (attempts : List Attempt) (letter : Char) : Bool :=
  attempts.any (fun a =>
    (List.range a.guess.length).any (fun i =>
      a.guess.get? i == some letter && a.feedback.get? i == some Feedback.present))

/-- Whether the letter appears in some guess. -/
def letterUsedSomewhere (attempts : List Attempt) (letter : Char) : Bool :=
  attempts.any (fun a => a.guess.contains letter)

/-- getLetterStatus: scan all attempts; any correct occurrence wins, else
any present occurrence, else mere appearance in a guess means absent, else
unused. -/
def getLetterStatus (attempts : List Attempt) (letter : Char) : LetterStatus :=
  if letterCorrectSomewhere attempts letter then LetterStatus.correct
  else if letterPresentSomewhere attempts letter then LetterStatus.present
  else if letterUsedSomewhere attempts letter then LetterStatus.absent
  else LetterStatus.unused

/-- The reachable attempt-budget invariant of a session: at most 6
attempts ever, and while the session is still active at most 5. -/
def AttemptsInvariant (s : GameSession) : Prop :=
  s.attempts.length ≤ maxAttempts ∧
    (s.status = GameStatus.active → s.attempts.length + 1 ≤ maxAttempts)

/-- A concrete active session one correct guess away from winning, with
45 seconds left and 100 coins. -/
def demoSession : GameSession :=
  { secretWord := some ['C', 'R', 'A', 'N', 'E'],
    currentGuess := ['C', 'R', 'A', 'N', 'E'],
    attempts := [],
    status := GameStatus.active,
    timeRemaining := 45,
    coins := 100,
    hints := [],
    meaningClueUsed := false,
    wordMeaning := none,
    completedScore := none,
    completedAttempts := none }

/-- A concrete active session whose player holds only 5 coins. -/
def brokeSession : GameSession :=
  { demoSession with coins := 5 }

/-- A concrete active session at the last second of the countdown. -/
def lastSecondSession : GameSession :=
  { demoSession with timeRemaining := 1 }

/-- A concrete session already lost. -/
def lostSession : GameSession :=
  { demoSession with status := GameStatus.lost }

/-- A concrete active session holding one hint at position 1 and four
typed letters. -/
def hintDemoSession : GameSession :=
  { demoSession with
      hints := [{ position := 1, letter := 'R' }],
      currentGuess := ['C', 'A', 'N', 'E'] }

/-- A concrete reachable session in which positions 0, 1, 2 are each both
hinted and marked correct by an attempt, while positions 3 and 4 are
neither correct nor hinted, and the player holds plenty of coins. -/
def doubleRevealSession : GameSession :=
  { secretWord := some ['C', 'R', 'A', 'N', 'E'],
    currentGuess := [],
    attempts :=
      [{ guess := ['C', 'R', 'A', 'T', 'S'],
         feedback := [Feedback.correct, Feedback.correct, Feedback.correct,
                      Feedback.absent, Feedback.absent] }],
    status := GameStatus.active,
    timeRemaining := 100,
    coins := 100,
    hints := [{ position := 0, letter := 'C' },
              { position := 1, letter := 'R' },
              { position := 2, letter := 'A' }],
    meaningClueUsed := false,
    wordMeaning := none,
    completedScore := none,
    completedAttempts := none }

/-- Helper: isWin of a pass-2 result holds exactly when every pass-1 flag
was true (pass 2 emits correct exactly at flagged entries). -/
lemma isWin_pass2_iff (l : List (Char × Bool)) (rem : List Char) :
    isWin (pass2 l rem) = true ↔ ∀ p ∈ l, p.2 = true := by
  induction l generalizing rem with
  | nil => simp [pass2, isWin]
  | cons hd tl ih =>
    obtain ⟨g, b⟩ := hd
    cases b with
    | true =>
      simp only [pass2, isWin, List.all_cons, Bool.and_eq_true, beq_self_eq_true,
        true_and, List.mem_cons]
      rw [show (List.all (pass2 tl rem) fun f => f == Feedback.correct) = isWin (pass2 tl rem) from rfl]
      rw [ih rem]
      constructor
      · rintro h p (rfl | hp)
        · rfl
        · exact h p hp
      · intro h p hp
        exact h p (Or.inr hp)
    | false =>
      constructor
      · intro h
        exfalso
        simp only [pass2] at h
        split at h <;> simp [isWin] at h
      · intro h
        exfalso
        have := h (g, false) (List.mem_cons_self _ _)
        simp at this

/-- Helper: every pass-1 flag is true exactly when every zipped pair of
guess and secret letters agrees. -/
lemma pass1_flags_iff (secret guess : List Char) :
    (∀ p ∈ pass1 secret guess, p.2 = true) ↔
      ∀ p ∈ guess.zip secret, p.1 = p.2 := by
  unfold pass1
  constructor
  · intro h p hp
    have := h (p.1, p.1 == p.2) (List.mem_map.mpr ⟨p, hp, rfl⟩)
    simpa [beq_iff_eq] using this
  · intro h p hp
    obtain ⟨q, hq, rfl⟩ := List.mem_map.mp hp
    simpa [beq_iff_eq] using h q hq

/-- Helper: for lists of equal length, having every zipped pair equal is
the same as the lists being equal. -/
lemma zip_forall_eq (g s : List Char) (h : g.length = s.length) :
    (∀ p ∈ g.zip s, p.1 = p.2) ↔ g = s := by
  induction g generalizing s with
  | nil =>
    cases s with
    | nil => simp
    | cons b s => simp at h
  | cons a g ih =>
    cases s with
    | nil => simp at h
    | cons b s =>
      simp only [List.zip_cons_cons, List.mem_cons, List.cons.injEq]
      have hlen : g.length = s.length := by simpa using h
      constructor
      · intro hall
        refine ⟨hall (a, b) (Or.inl rfl), ?_⟩
        exact (ih s hlen).mp (fun p hp => hall p (Or.inr hp))
      · rintro ⟨rfl, rfl⟩ p hp
        rcases hp with rfl | hp
        · rfl
        · exact ((ih _ rfl).mpr rfl) p hp

/-- Helper: the evaluator yields all-correct feedback exactly when guess
equals secret, for equal-length inputs. -/
lemma isWin_evaluate_iff (secret guess : List Char)
    (h : guess.length = secret.length) :
    isWin (evaluate secret guess) = true ↔ guess = secret := by
  unfold evaluate
  rw [isWin_pass2_iff, pass1_flags_iff, zip_forall_eq guess secret h]

/-- Sanity check from the duplicate-letter test case of the design notes:
guessing ERASE against SPEED marks only as many E letters present as the
secret still holds after exact matches are removed. -/
lemma evaluate_speed_erase : evaluate "SPEED".toList "ERASE".toList =
    [Feedback.present, Feedback.absent, Feedback.absent,
     Feedback.present, Feedback.present] := by decide

/-- Sanity check: an exact guess evaluates to all-correct feedback. -/
lemma evaluate_exact_match : evaluate "CRANE".toList "CRANE".toList =
    [Feedback.correct, Feedback.correct, Feedback.correct,
     Feedback.correct, Feedback.correct] := by decide

/-- Sanity check: a hint at position 1 interleaves with four typed
letters into a complete 5-letter guess. -/
lemma buildCompleteGuess_interleaves :
    buildCompleteGuess [⟨1, 'B'⟩] ['A', 'C', 'D', 'E'] =
      ['A', 'B', 'C', 'D', 'E'] := by decide

/-- Sanity check: too few typed letters yield a short reconstruction,
which the length guard then rejects. -/
lemma buildCompleteGuess_short :
    buildCompleteGuess [⟨4, 'E'⟩] ['A', 'B'] = ['A', 'B', 'E'] := by decide

/-- Sanity check: 45 seconds remaining score exactly 5.5. -/
lemma winningScore_at_45 : winningScore 45 = 11 / 2 := by
  norm_num [winningScore, timeBonus]

/-- Helper: a hint request never drives a nonnegative coin balance
negative — the only deduction subtracts 10 and runs only when the balance
is at least 10. -/
lemma handleHint_coins_nonneg (s : GameSession) (h : 0 ≤ s.coins) :
    0 ≤ (handleHint s).1.coins := by
  unfold handleHint
  split
  · simpa using h
  · split
    · simpa using h
    · split
      · simpa using h
      · simp only
        simp
        omega

/-- C6: with an active game and a coin balance below 10 (for instance 5),
a hint request fails with InsufficientCoins and leaves the balance, the
hint set and the attempt list unchanged; moreover a hint never drives a
nonnegative balance negative. -/
theorem hint_coin_floor_spec (s : GameSession) (w : List Char)
    (hsec : s.secretWord = some w) (hcoins : s.coins < 10) :
    handleHint s = (s, some GameError.insufficientCoins) ∧
    (handleHint s).1.coins = s.coins ∧
    (handleHint s).1.hints = s.hints ∧
    (handleHint s).1.attempts = s.attempts ∧
    (∀ s' : GameSession, 0 ≤ s'.coins → 0 ≤ (handleHint s').1.coins) := by
  have key : handleHint s = (s, some GameError.insufficientCoins) := by
    unfold handleHint
    rw [hsec]
    simp [hcoins]
  exact ⟨key, by rw [key], by rw [key], by rw [key],
    fun s' h => handleHint_coins_nonneg s' h⟩

/-- Witness for C6: at the concrete broke session (balance 5) the hint
request is rejected with InsufficientCoins. -/
theorem hint_coin_floor_witness :
    brokeSession.coins < 10 ∧
      handleHint brokeSession = (brokeSession, some GameError.insufficientCoins) :=
  ⟨by decide,
    (hint_coin_floor_spec brokeSession ['C', 'R', 'A', 'N', 'E'] rfl (by decide)).1⟩

/-- C7: the meaning clue deducts coins at most once per session: a first
call with balance at least 5 deducts exactly 5 and marks the clue used,
after which a second call returns the cached meaning without changing the
state; a first call with balance below 5 fails with InsufficientCoins and
deducts nothing; and a call on any session whose clue is already used and
cached changes nothing. -/
theorem meaning_clue_single_deduction (s : GameSession) (w : List Char)
    (m m2 : String)
    (hsec : s.secretWord = some w) (hfresh : s.meaningClueUsed = false) :
    (5 ≤ s.coins →
      (handleMeaningClue s m).2 = none ∧
      (handleMeaningClue s m).1.coins = s.coins - 5 ∧
      (handleMeaningClue s m).1.meaningClueUsed = true ∧
      handleMeaningClue (handleMeaningClue s m).1 m2 =
        ((handleMeaningClue s m).1, none)) ∧
    (s.coins < 5 →
      handleMeaningClue s m = (s, some GameError.insufficientCoins)) ∧
    (∀ s' : GameSession, ∀ w' : List Char, s'.secretWord = some w' →
      s'.meaningClueUsed = true → s'.wordMeaning.isSome = true →
      handleMeaningClue s' m2 = (s', none)) := by
  refine ⟨?_, ?_, ?_⟩
  · intro hc
    have h1 : handleMeaningClue s m =
        (({ s with
            wordMeaning := some m,
            coins := s.coins - 5,
            meaningClueUsed := true } : GameSession), none) := by
      unfold handleMeaningClue
      rw [hsec]
      simp [hfresh, show ¬ (s.coins < 5) by omega]
    refine ⟨by rw [h1], by rw [h1], by rw [h1], ?_⟩
    rw [h1]
    unfold handleMeaningClue
    simp [hsec]
  · intro hc
    unfold handleMeaningClue
    rw [hsec]
    simp [hfresh, hc]
  · intro s' w' hsec' hused hcached
    unfold handleMeaningClue
    rw [hsec']
    simp [hused, hcached]

/-- Witness for C7: at the concrete demo session (balance 100) the first
meaning-clue call leaves 95 coins and a second call changes nothing, so
two consecutive calls deduct exactly 5 coins total. -/
theorem meaning_clue_witness :
    (handleMeaningClue demoSession "a trading word").1.coins = 95 ∧
      handleMeaningClue (handleMeaningClue demoSession "a trading word").1 "again" =
        ((handleMeaningClue demoSession "a trading word").1, none) := by
  have h := (meaning_clue_single_deduction demoSession ['C', 'R', 'A', 'N', 'E']
    "a trading word" "again" rfl rfl).1 (by decide)
  refine ⟨?_, h.2.2.2⟩
  rw [h.2.1]
  decide

/-- C9: while the session is active a timer tick decreases time-remaining
by exactly 1; time-remaining never goes below 0; the tick that reaches 0
forces the status to lost with recorded score 0.0 and records the
in-progress attempt count; and once the status is no longer active a tick
changes nothing. -/
theorem timer_tick_spec (s : GameSession) (w : List Char) :
    (s.status = GameStatus.active → 1 ≤ s.timeRemaining →
      (tick s).timeRemaining = s.timeRemaining - 1) ∧
    (0 ≤ s.timeRemaining → 0 ≤ (tick s).timeRemaining) ∧
    (s.status = GameStatus.active → s.timeRemaining = 1 →
      s.secretWord = some w →
      (tick s).status = GameStatus.lost ∧
      (tick s).completedScore = some 0 ∧
      (tick s).completedAttempts = some s.attempts.length ∧
      (tick s).timeRemaining = 0) ∧
    (s.status ≠ GameStatus.active → tick s = s) := by
  refine ⟨?_, ?_, ?_, ?_⟩
  · intro hact ht
    unfold tick
    rw [if_pos ⟨hact, by omega⟩]
    split
    · simp
      omega
    · simp
  · intro ht
    unfold tick
    split
    · split
      · simp
      · simp
        omega
    · simpa using ht
  · intro hact ht hsec
    have hcond : s.status = GameStatus.active ∧ 0 < s.timeRemaining :=
      ⟨hact, by omega⟩
    unfold tick
    rw [if_pos hcond, if_pos (by omega : s.timeRemaining ≤ 1)]
    unfold handleTimeUp
    rw [hsec]
    simp
  · intro hina
    unfold tick
    rw [if_neg (by intro hc; exact hina hc.1)]

/-- Witness for C9: at the concrete last-second session the tick forces a
loss with recorded score 0 and clamps the clock at 0. -/
theorem timer_tick_witness :
    (tick lastSecondSession).status = GameStatus.lost ∧
      (tick lastSecondSession).completedScore = some 0 ∧
      (tick lastSecondSession).timeRemaining = 0 := by
  have h := (timer_tick_spec lastSecondSession ['C', 'R', 'A', 'N', 'E']).2.2.1
    rfl rfl rfl
  exact ⟨h.1, h.2.1, h.2.2.2⟩

/-- C10: for every countdown value at the moment of a winning guess, zero
and negative values included, the computed score is the base score 1.0
plus a time bonus that is never negative, so a win never scores below
1.0. -/
theorem winning_score_at_least_base (t : Int) :
    winningScore t = 1 + timeBonus t ∧ 0 ≤ timeBonus t ∧ 1 ≤ winningScore t := by
  have h0 : (0 : ℤ) ≤ max 0 t := le_max_left 0 t
  have h1 : (0 : ℚ) ≤ ((max 0 t : ℤ) : ℚ) := by exact_mod_cast h0
  have hb : 0 ≤ timeBonus t := by
    unfold timeBonus
    exact mul_nonneg (by norm_num) h1
  refine ⟨rfl, hb, ?_⟩
  unfold winningScore
  linarith

/-- C1: a winning guess records the score 1.0 + 0.1 × seconds-remaining,
taken from the live countdown value at the moment of submission; at 45
seconds remaining the score is exactly 5.5; a loss on the final attempt
and a time-expiry both record the score 0.0 exactly. -/
theorem score_formula_spec (s : GameSession) (secret cg : List Char)
    (hact : s.status = GameStatus.active)
    (hsec : s.secretWord = some secret)
    (hcg : buildCompleteGuess s.hints s.currentGuess = cg)
    (ht : 0 ≤ s.timeRemaining) :
    (cg.length = wordLength → cg.all isAlphaChar = true →
      isWin (evaluate (upperWord secret) (upperWord cg)) = true →
      (pressEnter s).1.completedScore =
          some (1 + (1 / 10 : ℚ) * (s.timeRemaining : ℚ)) ∧
        (s.timeRemaining = 45 →
          (pressEnter s).1.completedScore = some (11 / 2))) ∧
    (cg.length = wordLength → cg.all isAlphaChar = true →
      isWin (evaluate (upperWord secret) (upperWord cg)) = false →
      s.attempts.length + 1 = maxAttempts →
      (pressEnter s).1.completedScore = some 0) ∧
    (handleTimeUp s).completedScore = some 0 := by
  have hpe : pressEnter s = submitGuessCore s := by
    unfold pressEnter
    rw [if_pos hact]
  refine ⟨?_, ?_, ?_⟩
  · intro hlen halpha hwin
    have hstep : (submitGuessCore s).1.completedScore =
        some (winningScore s.timeRemaining) := by
      unfold submitGuessCore
      rw [hcg, hsec]
      simp [hlen, halpha, hwin]
    have hmax : max 0 s.timeRemaining = s.timeRemaining := max_eq_right ht
    constructor
    · rw [hpe, hstep]
      unfold winningScore timeBonus
      rw [hmax]
    · intro h45
      rw [hpe, hstep, h45]
      norm_num [winningScore, timeBonus]
  · intro hlen halpha hnotwin hsix
    have hle : maxAttempts ≤ s.attempts.length + 1 := le_of_eq hsix.symm
    rw [hpe]
    unfold submitGuessCore
    rw [hcg, hsec]
    simp [hlen, halpha, hnotwin, hle]
  · unfold handleTimeUp
    rw [hsec]

/-- Witness for C1: at the concrete demo session (a correct guess with 45
seconds remaining) the recorded score is exactly 5.5. -/
theorem score_formula_witness :
    (pressEnter demoSession).1.completedScore = some (11 / 2) := by
  have h := (score_formula_spec demoSession ['C', 'R', 'A', 'N', 'E']
    (buildCompleteGuess demoSession.hints demoSession.currentGuess)
    rfl rfl rfl (by decide)).1 (by decide) (by decide) (by decide)
  exact h.2 rfl

/-- C2: a submitted guess moves an active session to won exactly when its
feedback is all-correct, which holds exactly when the guess matches the
secret word up to letter case; and no other operation (a timer tick, a
hint, a meaning clue) ever moves the session to won. -/
theorem win_detection_spec (s : GameSession) (secret cg : List Char)
    (m : String)
    (hact : s.status = GameStatus.active)
    (hsec : s.secretWord = some secret)
    (hcg : buildCompleteGuess s.hints s.currentGuess = cg)
    (hlen : cg.length = wordLength)
    (hslen : secret.length = wordLength)
    (halpha : cg.all isAlphaChar = true) :
    ((pressEnter s).1.status = GameStatus.won ↔
      isWin (evaluate (upperWord secret) (upperWord cg)) = true) ∧
    (isWin (evaluate (upperWord secret) (upperWord cg)) = true ↔
      upperWord cg = upperWord secret) ∧
    (tick s).status ≠ GameStatus.won ∧
    (clickHint s).1.status ≠ GameStatus.won ∧
    (clickMeaningClue s m).1.status ≠ GameStatus.won := by
  have hpe : pressEnter s = submitGuessCore s := by
    unfold pressEnter
    rw [if_pos hact]
  have hiff2 : isWin (evaluate (upperWord secret) (upperWord cg)) = true ↔
      upperWord cg = upperWord secret := by
    apply isWin_evaluate_iff
    simp [upperWord, hlen, hslen]
  refine ⟨?_, hiff2, ?_, ?_, ?_⟩
  · cases hw : isWin (evaluate (upperWord secret) (upperWord cg)) with
    | true =>
      have hwon : (submitGuessCore s).1.status = GameStatus.won := by
        unfold submitGuessCore
        rw [hcg, hsec]
        simp [hlen, halpha, hw]
      rw [hpe]
      simp [hwon]
    | false =>
      have hne : (submitGuessCore s).1.status ≠ GameStatus.won := by
        unfold submitGuessCore
        rw [hcg, hsec]
        simp [hlen, halpha, hw]
        split
        · simp
        · simp [hact]
      rw [hpe]
      simp [hne]
  · unfold tick
    split
    · split
      · unfold handleTimeUp
        rw [hsec]
        simp
      · simp [hact]
    · simp [hact]
  · unfold clickHint
    rw [if_pos hact]
    unfold handleHint
    split
    · simp [hact]
    · split
      · simp [hact]
      · split
        · simp [hact]
        · simp [hact]
  · unfold clickMeaningClue
    rw [if_pos hact]
    unfold handleMeaningClue
    split
    · simp [hact]
    · split
      · simp [hact]
      · split
        · simp [hact]
        · simp [hact]

/-- Witness for C2: at the concrete demo session, whose typed guess
equals the secret word, submitting moves the session to won. -/
theorem win_detection_witness :
    (pressEnter demoSession).1.status = GameStatus.won := by
  have h := win_detection_spec demoSession ['C', 'R', 'A', 'N', 'E']
    (buildCompleteGuess demoSession.hints demoSession.currentGuess) "m"
    rfl rfl rfl (by decide) (by decide) (by decide)
  exact h.1.mpr (by decide)

/-- C5 failing input: at the double-reveal session the revealedPositions
array counts positions 0, 1, 2 twice each (once as correct, once as
hinted), so its length 6 passes the ≥ 5 check and handleHint rejects with
AllPositionsRevealed, although positions 3 and 4 are neither correct nor
hinted and the balance easily covers a hint. -/
theorem hint_rejected_despite_unrevealed_position :
    handleHint doubleRevealSession =
      (doubleRevealSession, some GameError.allPositionsRevealed) ∧
    revealedPositions doubleRevealSession.attempts doubleRevealSession.hints =
      [0, 0, 1, 1, 2, 2] ∧
    positionCorrect doubleRevealSession.attempts 3 = false ∧
    positionHinted doubleRevealSession.hints 3 = false ∧
    10 ≤ doubleRevealSession.coins ∧
    doubleRevealSession.status = GameStatus.active := by decide

/-- Helper: a session whose attempts and status agree with an invariant
holder satisfies the invariant too. -/
lemma attemptsInvariant_of_eq (s t : GameSession)
    (ha : t.attempts = s.attempts) (hs : t.status = s.status)
    (hinv : AttemptsInvariant s) : AttemptsInvariant t := by
  unfold AttemptsInvariant at *
  rw [ha, hs]
  exact hinv

/-- Helper: a hint click never changes the attempt list or the status. -/
lemma clickHint_preserves (s : GameSession) :
    (clickHint s).1.attempts = s.attempts ∧ (clickHint s).1.status = s.status := by
  unfold clickHint
  split
  · unfold handleHint
    split
    · simp
    · split
      · simp
      · split
        · simp
        · simp
  · simp

/-- Helper: a meaning-clue click never changes the attempt list or the
status. -/
lemma clickMeaningClue_preserves (s : GameSession) (m : String) :
    (clickMeaningClue s m).1.attempts = s.attempts ∧
      (clickMeaningClue s m).1.status = s.status := by
  unfold clickMeaningClue
  split
  · unfold handleMeaningClue
    split
    · simp
    · split
      · simp
      · split
        · simp
        · simp
  · simp

/-- Helper: a timer tick preserves the attempt-budget invariant (it never
touches the attempt list and only ever moves the status away from
active). -/
lemma tick_attempts_inv (s : GameSession) (hinv : AttemptsInvariant s) :
    AttemptsInvariant (tick s) := by
  obtain ⟨h1, h2⟩ := hinv
  unfold tick
  split
  · split
    · unfold handleTimeUp
      split
      · exact ⟨by simpa using h1, by intro h; simp at h⟩
      · exact ⟨by simpa using h1, by intro h; simp at h⟩
    · refine ⟨by simpa using h1, ?_⟩
      intro h
      simp at h
      simpa using h2 h
  · exact ⟨h1, h2⟩

/-- Helper: a guess submission preserves the attempt-budget invariant on
an active session. -/
lemma submitGuessCore_attempts_inv (s : GameSession)
    (hinv : AttemptsInvariant s) (hact : s.status = GameStatus.active) :
    AttemptsInvariant (submitGuessCore s).1 := by
  obtain ⟨h1, h2⟩ := hinv
  have h3 := h2 hact
  unfold AttemptsInvariant
  unfold submitGuessCore
  split
  · exact ⟨h1, h2⟩
  · split
    · exact ⟨h1, h2⟩
    · split
      · exact ⟨h1, h2⟩
      · split
        · refine ⟨?_, ?_⟩
          · simp
            omega
          · intro h
            simp at h
        · split
          · refine ⟨?_, ?_⟩
            · simp
              omega
            · intro h
              simp at h
          · next hnot =>
            refine ⟨?_, ?_⟩
            · simp
              omega
            · intro _
              simp
              omega

/-- C4: the attempt list never exceeds 6 entries — the budget invariant
holds at a fresh session and is preserved by every operation; a valid 6th
submitted guess that does not win moves the session to lost with recorded
score 0; and once the session is won or lost every operation, a guess
submission included, leaves the state unchanged. -/
theorem attempt_budget_spec (s : GameSession) (secret : List Char)
    (m : String) (hinv : AttemptsInvariant s) :
    AttemptsInvariant (pressEnter s).1 ∧
    (pressEnter s).1.attempts.length ≤ maxAttempts ∧
    AttemptsInvariant (tick s) ∧
    AttemptsInvariant (clickHint s).1 ∧
    AttemptsInvariant (clickMeaningClue s m).1 ∧
    AttemptsInvariant (startNewGame s secret) ∧
    (s.status = GameStatus.active → s.secretWord = some secret →
      s.attempts.length + 1 = maxAttempts →
      (buildCompleteGuess s.hints s.currentGuess).length = wordLength →
      (buildCompleteGuess s.hints s.currentGuess).all isAlphaChar = true →
      isWin (evaluate (upperWord secret)
        (upperWord (buildCompleteGuess s.hints s.currentGuess))) = false →
      (pressEnter s).1.status = GameStatus.lost ∧
      (pressEnter s).1.completedScore = some 0 ∧
      (pressEnter s).1.attempts.length = maxAttempts) ∧
    (s.status = GameStatus.won ∨ s.status = GameStatus.lost →
      pressEnter s = (s, none) ∧ tick s = s ∧
      clickHint s = (s, none) ∧ clickMeaningClue s m = (s, none)) := by
  have hpeInv : AttemptsInvariant (pressEnter s).1 := by
    unfold pressEnter
    split
    · next hact => exact submitGuessCore_attempts_inv s hinv hact
    · exact hinv
  refine ⟨hpeInv, hpeInv.1, tick_attempts_inv s hinv, ?_, ?_, ?_, ?_, ?_⟩
  · exact attemptsInvariant_of_eq s _ (clickHint_preserves s).1
      (clickHint_preserves s).2 hinv
  · exact attemptsInvariant_of_eq s _ (clickMeaningClue_preserves s m).1
      (clickMeaningClue_preserves s m).2 hinv
  · refine ⟨by simp [startNewGame, maxAttempts], ?_⟩
    intro _
    simp [startNewGame, maxAttempts]
  · intro hact hsec hsix hlen halpha hnotwin
    have hle : maxAttempts ≤ s.attempts.length + 1 := le_of_eq hsix.symm
    have hpe : pressEnter s = submitGuessCore s := by
      unfold pressEnter
      rw [if_pos hact]
    rw [hpe]
    unfold submitGuessCore
    rw [hsec]
    simp [hlen, halpha, hnotwin, hle]
    omega
  · intro hterm
    have hina : s.status ≠ GameStatus.active := by
      rcases hterm with h | h <;> simp [h]
    refine ⟨?_, ?_, ?_, ?_⟩
    · unfold pressEnter
      rw [if_neg hina]
    · unfold tick
      rw [if_neg (by intro hc; exact hina hc.1)]
    · unfold clickHint
      rw [if_neg hina]
    · unfold clickMeaningClue
      rw [if_neg hina]

/-- Witness for C4: the concrete lost session satisfies the invariant and
a further Enter press is ignored: no 7th attempt is accepted and the lost
status is terminal. -/
theorem attempt_budget_witness :
    pressEnter lostSession = (lostSession, none) ∧
      tick lostSession = lostSession := by
  have h := (attempt_budget_spec lostSession ['C', 'R', 'A', 'N', 'E'] "m"
    ⟨by decide, fun h => absurd h (by decide)⟩).2.2.2.2.2.2.2 (Or.inr rfl)
  exact ⟨h.1, h.2.1⟩

/-- Helper: extending the scanned range by one position adds one typed
slot exactly when the new position is unhinted. -/
lemma typedSlots_succ (hints : List Hint) (i : Nat) :
    typedSlots hints (i + 1) =
      typedSlots hints i + (if (hintAt hints i).isNone = true then 1 else 0) := by
  by_cases h : (hintAt hints i).isNone = true
  · simp [typedSlots, List.range_succ, List.filter_append, h]
  · simp [typedSlots, List.range_succ, List.filter_append, h]

/-- Helper: the typed-slot count is monotone in the scanned range. -/
lemma typedSlots_mono (hints : List Hint) {i j : Nat} (h : i ≤ j) :
    typedSlots hints i ≤ typedSlots hints j := by
  induction j with
  | zero =>
    have hz : i = 0 := Nat.le_zero.mp h
    subst hz
    exact le_rfl
  | succ j ih =>
    by_cases hij : i = j + 1
    · subst hij
      exact le_rfl
    · have hij' : i ≤ j := by omega
      calc typedSlots hints i ≤ typedSlots hints j := ih hij'
        _ ≤ typedSlots hints (j + 1) := by
            rw [typedSlots_succ]
            omega

/-- Helper: an unhinted position strictly below the scanned range
contributes a typed slot strictly below the total. -/
lemma typedSlots_lt (hints : List Hint) {i j : Nat} (hij : i < j)
    (hun : hintAt hints i = none) :
    typedSlots hints i < typedSlots hints j := by
  have h1 : typedSlots hints (i + 1) = typedSlots hints i + 1 := by
    rw [typedSlots_succ]
    simp [hun]
  have h2 : typedSlots hints (i + 1) ≤ typedSlots hints j :=
    typedSlots_mono hints hij
  omega

/-- Helper: when every unhinted position in range has a typed letter
available, the reconstruction loop produces, position by position, the
hint letter at hinted positions and the next typed letter at unhinted
ones. -/
lemma buildFrom_eq_map (hints : List Hint) (typed : List Char) :
    ∀ (fuel i : Nat),
      (∀ j, i ≤ j → j < i + fuel → hintAt hints j = none →
        typedSlots hints j < typed.length) →
      buildFrom hints typed fuel i (typedSlots hints i) =
        (List.range' i fuel).map (fun j =>
          match hintAt hints j with
          | some h => h.letter
          | none => (typed.get? (typedSlots hints j)).getD 'A') := by
  intro fuel
  induction fuel with
  | zero => intro i h; rfl
  | succ fuel ih =>
    intro i h
    rw [List.range'_succ, List.map_cons]
    simp only [buildFrom]
    cases hh : hintAt hints i with
    | some hint =>
      have hstep : typedSlots hints (i + 1) = typedSlots hints i := by
        rw [typedSlots_succ]
        simp [hh]
      have hrec := ih (i + 1) (fun j hj1 hj2 hj3 => h j (by omega) (by omega) hj3)
      rw [hstep] at hrec
      simp only [hh]
      rw [hrec]
    | none =>
      have hlt : typedSlots hints i < typed.length :=
        h i le_rfl (by omega) hh
      obtain ⟨c, hc⟩ : ∃ c, typed.get? (typedSlots hints i) = some c := by
        cases hg : typed.get? (typedSlots hints i) with
        | some c => exact ⟨c, rfl⟩
        | none =>
          have hlen := List.get?_eq_none.mp hg
          omega
      have hstep : typedSlots hints (i + 1) = typedSlots hints i + 1 := by
        rw [typedSlots_succ]
        simp [hh]
      have hrec := ih (i + 1) (fun j hj1 hj2 hj3 => h j (by omega) (by omega) hj3)
      rw [hstep] at hrec
      simp only [hh, hc]
      rw [hrec]
      simp

/-- C3: when the typed input covers every unhinted position, the
reconstructed guess carries at each of the 5 positions the hint letter if
the position is hinted and otherwise the next typed letter in order; and
whenever the reconstructed guess has length ≠ 5 or a non-alphabetic
character, submitGuess fails with InvalidInput and the state — the
attempt list included — is unchanged, before any evaluation. -/
theorem guess_reconstruction_spec (s : GameSession) :
    (typedSlots s.hints wordLength ≤ s.currentGuess.length →
      ∀ i, i < wordLength →
        (∀ h : Hint, hintAt s.hints i = some h →
          (buildCompleteGuess s.hints s.currentGuess).get? i = some h.letter) ∧
        (hintAt s.hints i = none →
          (buildCompleteGuess s.hints s.currentGuess).get? i =
            s.currentGuess.get? (typedSlots s.hints i))) ∧
    ((buildCompleteGuess s.hints s.currentGuess).length ≠ wordLength →
      submitGuessCore s = (s, some GameError.invalidInput)) ∧
    ((buildCompleteGuess s.hints s.currentGuess).all isAlphaChar = false →
      submitGuessCore s = (s, some GameError.invalidInput)) := by
  refine ⟨?_, ?_, ?_⟩
  · intro henough i hi
    have hcond : ∀ j, 0 ≤ j → j < 0 + wordLength → hintAt s.hints j = none →
        typedSlots s.hints j < s.currentGuess.length := by
      intro j _ hj2 hj3
      have hjlt : j < wordLength := by omega
      exact lt_of_lt_of_le (typedSlots_lt s.hints hjlt hj3) henough
    have hmap : buildCompleteGuess s.hints s.currentGuess =
        (List.range' 0 wordLength).map (fun j =>
          match hintAt s.hints j with
          | some h => h.letter
          | none => (s.currentGuess.get? (typedSlots s.hints j)).getD 'A') :=
      buildFrom_eq_map s.hints s.currentGuess wordLength 0 hcond
    have hi5 : i < 5 := hi
    constructor
    · intro hint hh
      rw [hmap]
      interval_cases i <;> simp [List.range', hh]
    · intro hh
      have hlt : typedSlots s.hints i < s.currentGuess.length := by
        have hjlt : i < wordLength := hi
        exact lt_of_lt_of_le (typedSlots_lt s.hints hjlt hh) henough
      obtain ⟨c, hc⟩ : ∃ c, s.currentGuess.get? (typedSlots s.hints i) = some c := by
        cases hg : s.currentGuess.get? (typedSlots s.hints i) with
        | some c => exact ⟨c, rfl⟩
        | none =>
          have hlen := List.get?_eq_none.mp hg
          omega
      rw [hmap]
      interval_cases i <;> (simp [List.range', hh] at hc ⊢; rw [hc]; simp)
  · intro hne
    unfold submitGuessCore
    rw [if_pos hne]
  · intro hfalse
    unfold submitGuessCore
    by_cases hlen : (buildCompleteGuess s.hints s.currentGuess).length ≠ wordLength
    · rw [if_pos hlen]
    · rw [if_neg hlen, if_pos (by simp [hfalse])]

/-- Witness for C3: at the concrete hinted session (hint R at position 1,
typed letters C, A, N, E) the reconstructed guess carries the hint letter
at position 1 and the typed letters at the remaining positions. -/
theorem guess_reconstruction_witness :
    (buildCompleteGuess hintDemoSession.hints hintDemoSession.currentGuess).get? 1 =
      some 'R' ∧
    (buildCompleteGuess hintDemoSession.hints hintDemoSession.currentGuess).get? 2 =
      hintDemoSession.currentGuess.get? 1 := by
  have h := (guess_reconstruction_spec hintDemoSession).1 (by decide)
  exact ⟨(h 1 (by decide)).1 { position := 1, letter := 'R' } (by decide),
    (h 2 (by decide)).2 (by decide)⟩

/-- Some attempt carries the letter at a position marked correct. -/
def CorrectOcc (attempts : List Attempt) (c : Char) : Prop :=
  ∃ a ∈ attempts, ∃ i, a.guess.get? i = some c ∧
    a.feedback.get? i = some Feedback.correct

/-- Some attempt carries the letter at a position marked present. -/
def PresentOcc (attempts : List Attempt) (c : Char) : Prop :=
  ∃ a ∈ attempts, ∃ i, a.guess.get? i = some c ∧
    a.feedback.get? i = some Feedback.present

/-- The letter appears in some submitted guess. -/
def UsedOcc (attempts : List Attempt) (c : Char) : Prop :=
  ∃ a ∈ attempts, c ∈ a.guess

/-- Helper: the boolean correct scan agrees with its propositional
reading. -/
lemma letterCorrectSomewhere_iff (attempts : List Attempt) (c : Char) :
    letterCorrectSomewhere attempts c = true ↔ CorrectOcc attempts c := by
  unfold letterCorrectSomewhere CorrectOcc
  rw [List.any_eq_true]
  constructor
  · rintro ⟨a, ha, hb⟩
    rw [List.any_eq_true] at hb
    obtain ⟨i, hi, hcond⟩ := hb
    rw [Bool.and_eq_true, beq_iff_eq, beq_iff_eq] at hcond
    exact ⟨a, ha, i, hcond.1, hcond.2⟩
  · rintro ⟨a, ha, i, h1, h2⟩
    refine ⟨a, ha, ?_⟩
    rw [List.any_eq_true]
    have hlen : i < a.guess.length := by
      by_contra hge
      have h0 : a.guess.get? i = none := List.get?_eq_none.mpr (by omega)
      rw [h0] at h1
      simp at h1
    refine ⟨i, List.mem_range.mpr hlen, ?_⟩
    rw [Bool.and_eq_true, beq_iff_eq, beq_iff_eq]
    exact ⟨h1, h2⟩

/-- Helper: the boolean present scan agrees with its propositional
reading. -/
lemma letterPresentSomewhere_iff (attempts : List Attempt) (c : Char) :
    letterPresentSomewhere attempts c = true ↔ PresentOcc attempts c := by
  unfold letterPresentSomewhere PresentOcc
  rw [List.any_eq_true]
  constructor
  · rintro ⟨a, ha, hb⟩
    rw [List.any_eq_true] at hb
    obtain ⟨i, hi, hcond⟩ := hb
    rw [Bool.and_eq_true, beq_iff_eq, beq_iff_eq] at hcond
    exact ⟨a, ha, i, hcond.1, hcond.2⟩
  · rintro ⟨a, ha, i, h1, h2⟩
    refine ⟨a, ha, ?_⟩
    rw [List.any_eq_true]
    have hlen : i < a.guess.length := by
      by_contra hge
      have h0 : a.guess.get? i = none := List.get?_eq_none.mpr (by omega)
      rw [h0] at h1
      simp at h1
    refine ⟨i, List.mem_range.mpr hlen, ?_⟩
    rw [Bool.and_eq_true, beq_iff_eq, beq_iff_eq]
    exact ⟨h1, h2⟩

/-- Helper: the boolean usage scan agrees with its propositional
reading. -/
lemma letterUsedSomewhere_iff (attempts : List Attempt) (c : Char) :
    letterUsedSomewhere attempts c = true ↔ UsedOcc attempts c := by
  unfold letterUsedSomewhere UsedOcc
  rw [List.any_eq_true]
  constructor
  · rintro ⟨a, ha, hb⟩
    exact ⟨a, ha, by simpa using hb⟩
  · rintro ⟨a, ha, hm⟩
    exact ⟨a, ha, by simpa using hm⟩

/-- C8: the keyboard status of a letter over the whole attempt history is
correct when the letter is marked correct at any position of any attempt,
otherwise present when it is marked present anywhere, otherwise absent
when it appears in any guess, otherwise unused — the precedence
correct > present > absent > unused — and a letter once correct stays
correct however many further attempts are appended. -/
theorem letter_status_precedence (attempts more : List Attempt) (c : Char) :
    (getLetterStatus attempts c = LetterStatus.correct ↔ CorrectOcc attempts c) ∧
    (getLetterStatus attempts c = LetterStatus.present ↔
      ¬ CorrectOcc attempts c ∧ PresentOcc attempts c) ∧
    (getLetterStatus attempts c = LetterStatus.absent ↔
      ¬ CorrectOcc attempts c ∧ ¬ PresentOcc attempts c ∧ UsedOcc attempts c) ∧
    (getLetterStatus attempts c = LetterStatus.unused ↔
      ¬ CorrectOcc attempts c ∧ ¬ PresentOcc attempts c ∧ ¬ UsedOcc attempts c) ∧
    (getLetterStatus attempts c = LetterStatus.correct →
      getLetterStatus (attempts ++ more) c = LetterStatus.correct) := by
  have hciff := letterCorrectSomewhere_iff attempts c
  have hpiff := letterPresentSomewhere_iff attempts c
  have huiff := letterUsedSomewhere_iff attempts c
  unfold getLetterStatus
  by_cases h1 : letterCorrectSomewhere attempts c = true
  · rw [if_pos h1]
    have hP : CorrectOcc attempts c := hciff.mp h1
    refine ⟨by simp [hP], by simp [hP], by simp [hP], by simp [hP], ?_⟩
    intro _
    have hP' : CorrectOcc (attempts ++ more) c := by
      obtain ⟨a, ha, i, hg, hf⟩ := hP
      exact ⟨a, List.mem_append_left more ha, i, hg, hf⟩
    rw [if_pos ((letterCorrectSomewhere_iff (attempts ++ more) c).mpr hP')]
  · rw [if_neg h1]
    have hnC : ¬ CorrectOcc attempts c := fun hx => h1 (hciff.mpr hx)
    by_cases h2 : letterPresentSomewhere attempts c = true
    · rw [if_pos h2]
      have hP2 : PresentOcc attempts c := hpiff.mp h2
      exact ⟨by simp [hnC], by simp [hnC, hP2], by simp [hP2],
        by simp [hP2], by intro hx; simp at hx⟩
    · rw [if_neg h2]
      have hnP : ¬ PresentOcc attempts c := fun hx => h2 (hpiff.mpr hx)
      by_cases h3 : letterUsedSomewhere attempts c = true
      · rw [if_pos h3]
        have hU : UsedOcc attempts c := huiff.mp h3
        exact ⟨by simp [hnC], by simp [hnP], by simp [hnC, hnP, hU],
          by simp [hU], by intro hx; simp at hx⟩
      · rw [if_neg h3]
        have hnU : ¬ UsedOcc attempts c := fun hx => h3 (huiff.mpr hx)
        exact ⟨by simp [hnC], by simp [hnP], by simp [hnU],
          by simp [hnC, hnP, hnU], by intro hx; simp at hx⟩

/-- A concrete attempt whose first letter is marked correct. -/
def demoAttempt : Attempt :=
  { guess := ['C', 'R', 'A', 'N', 'E'],
    feedback := [Feedback.correct, Feedback.present, Feedback.absent,
                 Feedback.absent, Feedback.absent] }

/-- Witness for C8: at a concrete one-attempt history the letter C is
correct, and stays correct after a further attempt is appended. -/
theorem letter_status_witness :
    getLetterStatus [demoAttempt] 'C' = LetterStatus.correct ∧
      getLetterStatus ([demoAttempt] ++ [demoAttempt]) 'C' =
        LetterStatus.correct := by
  have h := letter_status_precedence [demoAttempt] [demoAttempt] 'C'
  have hocc : CorrectOcc [demoAttempt] 'C' :=
    ⟨demoAttempt, by simp, 0, by decide, by decide⟩
  exact ⟨h.1.mpr hocc, h.2.2.2.2 (h.1.mpr hocc)⟩

/-- Witness for C10: even at the negative countdown value −7 the winning
score is at least the base score, with a nonnegative time bonus. -/
theorem winning_score_witness :
    1 ≤ winningScore (-7) ∧ 0 ≤ timeBonus (-7) :=
  ⟨(winning_score_at_least_base (-7)).2.2, (winning_score_at_least_base (-7)).2.1⟩

end BullsBears
